import Mathlib

/-!
Shallow embedding of the photo-server (src/main.rs, src/server.rs).

Strings and filesystem names are modelled as byte lists (`Bytes := List Nat`):
Rust operates on `&str` / `OsStr` whose primitive operations in this program
(length, `split_at_checked`, `eq_ignore_ascii_case`, byte iteration in
`validate_name`) are byte-level.  `ascii s` converts an ASCII Lean string
literal into its byte list (for ASCII strings the char codes equal the UTF-8
bytes; every literal used below is ASCII).

The filesystem is modelled as a map from paths to directory listings and file
contents; `Path::join` of the relative names used here is `a ++ "/" ++ b`.
The external JPEG decode/resize/encode primitive (the `image` crate) is an
abstract parameter `ResizePrim`; `image::open` on a missing file and any
decode failure both surface as `image::ImageError` in the source, modelled by
the `ErrPayload.image` payload.
-/

deriving instance DecidableEq for Except

namespace PhotoSrv

abbrev Bytes := List Nat

/-- Byte list of an ASCII string literal. -/
def ascii (s : String) : Bytes := s.data.map Char.toNat

/-- `Path::join` for the relative, slash-free names this server joins. -/
def joinPath (a b : Bytes) : Bytes := a ++ (47 :: b)

/-- `u8::to_ascii_lowercase`. -/
def toAsciiLower (b : Nat) : Nat := if 65 ≤ b ∧ b ≤ 90 then b + 32 else b

/-- `eq_ignore_ascii_case` on byte strings (bytewise, as in Rust's `str`/`u8`). -/
def eqIgnoreAsciiCase : Bytes → Bytes → Bool
  | [], [] => true
  | a :: x, b :: y => (toAsciiLower a == toAsciiLower b) && eqIgnoreAsciiCase x y
  | _, _ => false

/-- A UTF-8 continuation byte (`0x80..0xC0`), as used by `str::is_char_boundary`. -/
def isContinuation (b : Nat) : Bool := 128 ≤ b && b < 192

/-- `str::is_char_boundary`: true at 0 and at the length, and at any index
holding a non-continuation byte.  (`split_at_checked` returns `None` exactly
when this is false.) -/
def isCharBoundary (l : Bytes) (i : Nat) : Bool :=
  i == 0 ||
    (match l.drop i with
     | [] => i == l.length
     | b :: _ => !isContinuation b)

/-- main.rs `remove_extension`: given `"foo.BAR"` and `"bar"` returns
`some "foo"`.  `index = len - (1 + ext.len)` via `checked_sub`; `split_at_checked`
(the char-boundary test); first byte of the tail must be `'.'` (46); the rest
must equal the extension ignoring ASCII case. -/
def remove_extension (filename extension : Bytes) : Option Bytes :=
  if 1 + extension.length ≤ filename.length then
    if isCharBoundary filename (filename.length - (1 + extension.length)) then
      match filename.drop (filename.length - (1 + extension.length)) with
      | b :: tl =>
        if b = 46 then
          if eqIgnoreAsciiCase extension tl then
            some (filename.take (filename.length - (1 + extension.length)))
          else none
        else none
      | [] => none
    else none
  else none

/-- The `DubiousFilename` error, carrying the offending raw name. -/
structure DubiousFilename where
  name : Bytes
deriving DecidableEq

/-- The byte set accepted by the `match` in `validate_name` as written in the
source: the range patterns `b'0' .. b'9'`, `b'A' .. b'Z'`, `b'a' .. b'z'` are
Rust half-open (exclusive) range patterns, so the upper bounds 57 (`'9'`),
90 (`'Z'`) and 122 (`'z'`) fall through to the error arm. -/
def valid_byte (b : Nat) : Bool :=
  (48 ≤ b && b < 57) || (65 ≤ b && b < 90) || (97 ≤ b && b < 122) ||
    b == 95 || b == 46 || b == 45

/-- main.rs `validate_name`: scans the encoded bytes; any byte outside
`valid_byte` aborts with `DubiousFilename` carrying the name; otherwise the
name is returned unchanged. -/
def validate_name (s : Bytes) : Except DubiousFilename Bytes :=
  if s.all valid_byte then .ok s else .error ⟨s⟩

/-- The safe byte set as the spec states it: ASCII letters and digits
(inclusive ranges), `_`, `.`, `-`. -/
def spec_safe_byte (b : Nat) : Bool :=
  (48 ≤ b && b ≤ 57) || (65 ≤ b && b ≤ 90) || (97 ≤ b && b ≤ 122) ||
    b == 95 || b == 46 || b == 45

/-- Error payloads wrapped in `HttpError::Error(Box<dyn Error>)`. -/
inductive ErrPayload
  | dubious (name : Bytes)
  | io
  | image
deriving DecidableEq

/-- main.rs `HttpError`. -/
inductive HttpError
  | Invalid
  | NotFound
  | Error (e : ErrPayload)
deriving DecidableEq

/-- main.rs `HttpOkay`; a `File` handle is modelled by the file's contents. -/
inductive HttpOkay
  | File (contents : Bytes)
  | Html (text : Bytes)
  | Jpeg (data : Bytes)
deriving DecidableEq

/-- The status code `handle_requests` answers for each outcome
(200 / 400 / 404 / 500). -/
def status_of : Except HttpError HttpOkay → Nat
  | .ok _ => 200
  | .error .Invalid => 400
  | .error .NotFound => 404
  | .error (.Error _) => 500

/-- main.rs `Dimensions`. -/
structure Dimensions where
  w : Nat
  h : Nat
deriving DecidableEq

/-- main.rs `Params`. -/
structure Params where
  w : Option Nat
  h : Option Nat
deriving DecidableEq

/-- `Params::get_dimensions`: fill in defaults 800/600 and clamp with
`2048.min(..)`. -/
def Params.get_dimensions (p : Params) : Dimensions :=
  { w := min 2048 (match p.w with | some w => w | none => 800),
    h := min 2048 (match p.h with | some h => h | none => 600) }

/-- ASCII whitespace bytes (space and 0x09..0x0D), the whitespace relevant to
`str::trim` on the ASCII query values modelled here. -/
def is_ws (b : Nat) : Bool := b == 32 || (9 ≤ b && b ≤ 13)

/-- `str::trim`: drop whitespace from both ends. -/
def trim_bytes (s : Bytes) : Bytes :=
  ((s.dropWhile is_ws).reverse.dropWhile is_ws).reverse

/-- Decimal digit run: the body of `u32::from_str` after the optional sign. -/
def digits_val : Bytes → Nat → Option Nat
  | [], acc => some acc
  | b :: rest, acc =>
    if 48 ≤ b ∧ b ≤ 57 then digits_val rest (acc * 10 + (b - 48)) else none

/-- Parse a non-empty run of decimal digits. -/
def parse_num : Bytes → Option Nat
  | [] => none
  | b :: rest => digits_val (b :: rest) 0

/-- main.rs `parse_u32`: `s.trim().parse::<u32>().ok()` — trim, optional
leading `'+'`, decimal digits, value below `2^32`; any failure gives `none`. -/
def parse_u32 (s : Bytes) : Option Nat :=
  let t := trim_bytes s
  let t2 := match t with | 43 :: rest => rest | _ => t
  match parse_num t2 with
  | some v => if v < 4294967296 then some v else none
  | none => none

/-- `FromIterator<(String, String)> for Params`: later occurrences of `w`/`h`
overwrite earlier ones; values are run through `parse_u32`. -/
def params_of_pairs (pairs : List (Bytes × Bytes)) : Params :=
  pairs.foldl
    (fun ret kv =>
      if kv.fst = ascii "w" then { ret with w := parse_u32 kv.snd }
      else if kv.fst = ascii "h" then { ret with h := parse_u32 kv.snd }
      else ret)
    { w := none, h := none }

/-- main.rs `Album`. -/
structure Album where
  readme : Option Bytes
  jpegs : List Bytes
  others : List Bytes
deriving DecidableEq

/-- Byte-lexicographic `≤` on names — the total order behind `Vec<String>::sort`. -/
def lexLe : Bytes → Bytes → Bool
  | [], _ => true
  | _ :: _, [] => false
  | a :: x, b :: y => a < b || (a == b && lexLe x y)

/-- Stable insertion for `sortBytes`. -/
def insertLe (x : Bytes) : List Bytes → List Bytes
  | [] => [x]
  | y :: rest => if lexLe x y then x :: y :: rest else y :: insertLe x rest

/-- `Vec<String>::sort`: a stable sort by the byte-lexicographic order. -/
def sortBytes : List Bytes → List Bytes
  | [] => []
  | x :: rest => insertLe x (sortBytes rest)

/-- The loop body of `Album::new`: validate each enumerated name (a dubious
name aborts the whole listing), classify `README.txt` / `*.jpg` / other, and
push in enumeration order. -/
def album_scan : List Bytes → Album → Except HttpError Album
  | [], ret => .ok ret
  | filename :: rest, ret =>
    match validate_name filename with
    | .error d => .error (.Error (.dubious d.name))
    | .ok fname =>
      if fname = ascii "README.txt" then
        album_scan rest { ret with readme := some fname }
      else
        match remove_extension fname (ascii "jpg") with
        | some _ => album_scan rest { ret with jpegs := ret.jpegs ++ [fname] }
        | none => album_scan rest { ret with others := ret.others ++ [fname] }

/-- main.rs `Album::new` given the directory listing: scan, then sort the
`jpegs` and `others` lists. -/
def album_new (entries : List Bytes) : Except HttpError Album :=
  match album_scan entries { readme := none, jpegs := [], others := [] } with
  | .error e => .error e
  | .ok ret =>
    .ok { ret with jpegs := sortBytes ret.jpegs, others := sortBytes ret.others }

/-- The `previouses`/`nexts` map-building loop in `frame` (main.rs 279-284).
`HashMap::insert` overwrites, which prepend-plus-first-match `List.lookup`
simulates. -/
def buildMaps : List Bytes → Bytes → List (Bytes × Bytes) × List (Bytes × Bytes) →
    List (Bytes × Bytes) × List (Bytes × Bytes)
  | [], _, maps => maps
  | p :: rest, prev, (prevs, nexts) => buildMaps rest p ((p, prev) :: prevs, (prev, p) :: nexts)

/-- The previous/next computation of `frame` (main.rs 275-333): `prev` starts
at `paths.last()` (`NotFound` on an empty list), the loop fills both maps, and
the two lookups for the requested name each fail with `NotFound` when absent
(`previouses` is consulted first). -/
def previous_next (paths : List Bytes) (name : Bytes) : Except HttpError (Bytes × Bytes) :=
  match paths.getLast? with
  | none => .error .NotFound
  | some lastp =>
    match List.lookup name (buildMaps paths lastp ([], [])).fst with
    | none => .error .NotFound
    | some prevName =>
      match List.lookup name (buildMaps paths lastp ([], [])).snd with
      | none => .error .NotFound
      | some nextName => .ok (prevName, nextName)

/-! ### HTML rendering (main.rs `index` and `frame`) -/

/-- `html_escape::encode_text` on one byte: `&`, `<`, `>` are replaced. -/
def escape_byte (b : Nat) : Bytes :=
  if b = 38 then ascii "&amp;"
  else if b = 60 then ascii "&lt;"
  else if b = 62 then ascii "&gt;"
  else [b]

/-- `html_escape::encode_text` over a byte string. -/
def escape_html (s : Bytes) : Bytes := s.flatMap escape_byte

/-- Decimal rendering of a number, as `Display` for integers produces. -/
def nat_bytes (n : Nat) : Bytes := ascii (Nat.repr n)

/-- `Display for Dimensions`: `?w={w}&h={h}`. -/
def dims_str (d : Dimensions) : Bytes :=
  ascii "?w=" ++ nat_bytes d.w ++ ascii "&h=" ++ nat_bytes d.h

/-- `Vec::join` with a separator. -/
def joinSep (sep : Bytes) : List Bytes → Bytes
  | [] => []
  | [x] => x
  | x :: y :: rest => x ++ sep ++ joinSep sep (y :: rest)

/-- The `<pre>{escaped readme}</pre>` block built in `index` when a README
exists. -/
def pre_block (text : Bytes) : Bytes :=
  ascii "<pre>" ++ escape_html text ++ ascii "</pre>"

/-- One jpeg entry of the index page:
`<a href="{name}.html{dimensions}"><img src="{name}.thumb"/></a>`. -/
def jpeg_entry (d : Dimensions) (name : Bytes) : Bytes :=
  ascii "<a href=\"" ++ name ++ ascii ".html" ++ dims_str d ++
    ascii "\"><img src=\"" ++ name ++ ascii ".thumb\"/></a>"

/-- One non-jpeg entry of the index page: `<a href="{name}">{name}</a>`. -/
def other_entry (name : Bytes) : Bytes :=
  ascii "<a href=\"" ++ name ++ ascii "\">" ++ name ++ ascii "</a>"

def idx1 : Bytes := ascii "<html>\n <head>\n  <title>"
def idx2 : Bytes := ascii "</title>\n </head>\n <body>\n  <h2>"
def idx3 : Bytes := ascii "</h2>\n  <a href=\"..\">Up</a><br/>\n  "
def idx4 : Bytes := ascii "\n  "
def idx5 : Bytes := ascii "\n  <br/>\n  "
def idx6 : Bytes := ascii "\n </body>\n</html>"

/-- The index page template (main.rs 243-261) with `dir_name`, the readme
block, and the two joined entry lists interpolated; only the readme text was
escaped (by `pre_block`), the names are inserted as-is. -/
def index_html (dir_name readme : Bytes) (album : Album) (d : Dimensions) : Bytes :=
  idx1 ++ dir_name ++ idx2 ++ dir_name ++ idx3 ++ readme ++ idx4 ++
    joinSep idx4 (album.jpegs.map (jpeg_entry d)) ++ idx5 ++
    joinSep idx4 (album.others.map other_entry) ++ idx6

/-- The stylesheet substring of `frame` (braces written as escapes). -/
def stylesheet : Bytes :=
  ascii "body \x7bbackground-color: #000000; color: #FFFFFF\x7d\na:link \x7bcolor: #8080FF\x7d\na:visited \x7bcolor: #C080FF\x7d\ninput[type=\"text\"] \x7b\nbackground-color: #404040; color: #FFFFFF;\nborder: thin solid #808080\n\x7d"

def frm1 : Bytes := ascii "<html>\n<head>\n<title>"
def frm2 : Bytes := ascii "/"
def frm3 : Bytes := ascii "</title>\n<style type=\"text/css\">\n"
def frm4 : Bytes := ascii "\n</style>\n</head>\n<body>\n<center><h3>"
def frm5 : Bytes := ascii "</h3></center>\n<form action=\""
def frm6 : Bytes := ascii ".html\" method=\"get\">\n<table align=\"center\" valign=\"center\">\n<tr>\n<td colspan=\"3\" align=\"center\">\n<a href=\""
def frm7 : Bytes := ascii ".html"
def frm8 : Bytes := ascii "\">previous</a>\n<a href=\""
def frm9 : Bytes := ascii "\">next</a>\n<a href=\"."
def frm10 : Bytes := ascii "\">up</a>\n<a href=\""
def frm11 : Bytes := ascii "\">original</a>\n</td>\n</tr>\n<tr>\n<td colspan=\"3\" align=\"center\">\n<img src=\""
def frm12 : Bytes := ascii "\"/>\n</td>\n</tr>\n<tr>\n<td>Width <input type=\"text\" name=\"w\" value=\""
def frm13 : Bytes := ascii "\"/></td>\n<td>Height <input type=\"text\" name=\"h\" value=\""
def frm14 : Bytes := ascii "\"/></td>\n<td><input type=\"submit\" value=\"Change size\"/></td>\n</tr>\n</table>\n</form>\n</body>\n</html>"

/-- The frame page template (main.rs 295-337).  `base_name` is
`remove_extension(leaf_name, "jpg").unwrap()` (the caller guarantees the
extension, so the `getD` default is never reached); every name is
interpolated without escaping. -/
def frame_html (dir_name leaf_name previous next : Bytes) (d : Dimensions) : Bytes :=
  let base_name := (remove_extension leaf_name (ascii "jpg")).getD []
  frm1 ++ dir_name ++ frm2 ++ base_name ++ frm3 ++ stylesheet ++ frm4 ++
    dir_name ++ frm2 ++ base_name ++ frm5 ++ leaf_name ++ frm6 ++
    previous ++ frm7 ++ dims_str d ++ frm8 ++
    next ++ frm7 ++ dims_str d ++ frm9 ++ dims_str d ++ frm10 ++
    leaf_name ++ frm11 ++ leaf_name ++ dims_str d ++ frm12 ++
    nat_bytes d.w ++ frm13 ++ nat_bytes d.h ++ frm14

/-! ### Filesystem model and the request handlers -/

/-- The filesystem: directory listings and file contents by path.  The
document tree is never written; the thumbnail tree is written via `setFile`. -/
structure FS where
  dirs : Bytes → Option (List Bytes)
  files : Bytes → Option Bytes

/-- Create or overwrite one file (`File::create_new` + `write`). -/
def FS.setFile (fs : FS) (p c : Bytes) : FS :=
  { fs with files := fun q => if q = p then some c else fs.files q }

/-- The external JPEG decode/resize/encode primitive (`image` crate):
source bytes and target dimensions to encoded output, `none` on any
decode/processing failure. -/
abbrev ResizePrim := Bytes → Dimensions → Option Bytes

/-- `PhotoServer::resize_jpeg`: `image::open` the source path (a missing or
unreadable file surfaces as an `image::ImageError`), then resize and
re-encode via the external primitive. -/
def resize_jpeg (rp : ResizePrim) (fs : FS) (jpeg_name : Bytes) (d : Dimensions) :
    Except HttpError Bytes :=
  match fs.files jpeg_name with
  | none => .error (.Error .image)
  | some source =>
    match rp source d with
    | some bytes => .ok bytes
    | none => .error (.Error .image)

/-- `PhotoServer::index`: enumerate the album, read and escape the README if
present, render the page. -/
def index_fn (fs : FS) (document_root dir_name : Bytes) (params : Params) :
    Except HttpError HttpOkay :=
  let d := params.get_dimensions
  match fs.dirs (joinPath document_root dir_name) with
  | none => .error (.Error .io)
  | some entries =>
    match album_new entries with
    | .error e => .error e
    | .ok album =>
      match album.readme with
      | some name =>
        match fs.files (joinPath (joinPath document_root dir_name) name) with
        | none => .error (.Error .io)
        | some text => .ok (.Html (index_html dir_name (pre_block text) album d))
      | none => .ok (.Html (index_html dir_name [] album d))

/-- `PhotoServer::rescale`: resize the joined source path at the requested
dimensions. -/
def rescale_fn (rp : ResizePrim) (fs : FS) (document_root dir_name leaf_name : Bytes)
    (params : Params) : Except HttpError HttpOkay :=
  match resize_jpeg rp fs (joinPath (joinPath document_root dir_name) leaf_name)
      params.get_dimensions with
  | .ok bytes => .ok (.Jpeg bytes)
  | .error e => .error e

/-- `PhotoServer::frame`: enumerate the album, re-sort the jpeg list, compute
the previous/next neighbours of `leaf_name`, render the page. -/
def frame_fn (fs : FS) (document_root dir_name leaf_name : Bytes) (params : Params) :
    Except HttpError HttpOkay :=
  let d := params.get_dimensions
  match fs.dirs (joinPath document_root dir_name) with
  | none => .error (.Error .io)
  | some entries =>
    match album_new entries with
    | .error e => .error e
    | .ok album =>
      match previous_next (sortBytes album.jpegs) leaf_name with
      | .error e => .error e
      | .ok pn => .ok (.Html (frame_html dir_name leaf_name pn.fst pn.snd d))

/-- The thumbnail path `thumbnail_root/dir/leaf`. -/
def thumb_path (thumbnail_root dir_name leaf_name : Bytes) : Bytes :=
  joinPath (joinPath thumbnail_root dir_name) leaf_name

/-- `PhotoServer::thumb` (main.rs 341-351): `create_dir_all` (always succeeds
in the model), then `File::create_new` — if the cache file already exists,
generation is skipped entirely; otherwise the empty file is created, the
source is resized at 128×96 and written (a resize failure propagates,
leaving the empty file in place).  Finally the cache file is opened and
returned.  The third component counts invocations of the resize step. -/
def thumb (rp : ResizePrim) (fs : FS) (document_root thumbnail_root dir_name leaf_name : Bytes) :
    Except HttpError HttpOkay × FS × Nat :=
  match fs.files (thumb_path thumbnail_root dir_name leaf_name) with
  | some contents => (.ok (.File contents), fs, 0)
  | none =>
    match resize_jpeg rp (fs.setFile (thumb_path thumbnail_root dir_name leaf_name) [])
        (joinPath (joinPath document_root dir_name) leaf_name) { w := 128, h := 96 } with
    | .error e => (.error e, fs.setFile (thumb_path thumbnail_root dir_name leaf_name) [], 1)
    | .ok bytes =>
      (.ok (.File bytes),
        (fs.setFile (thumb_path thumbnail_root dir_name leaf_name) []).setFile
          (thumb_path thumbnail_root dir_name leaf_name) bytes, 1)

/-- `File::open` of a static file (main.rs 395-396): a missing file is an io
error (`HttpError::Error`), not `NotFound`. -/
def static_fn (fs : FS) (document_root dir_name leaf_name : Bytes) :
    Except HttpError HttpOkay :=
  match fs.files (joinPath (joinPath document_root dir_name) leaf_name) with
  | some contents => .ok (.File contents)
  | none => .error (.Error .io)

/-- The route classification of main.rs 378-399. -/
inductive Route
  | rescale (dir_name leaf_name : Bytes)
  | frame (dir_name jpeg_name : Bytes)
  | thumb (dir_name jpeg_name : Bytes)
  | staticFile (dir_name leaf_name : Bytes)
deriving DecidableEq

/-- The suffix-chain dispatch of `handle_request` (main.rs 381-396): a `.jpg`
leaf goes to rescale only when a size parameter is present and otherwise
falls through to the static branch; `.jpg.html` and `.jpg.thumb` strip the
outer extension and require the inner `.jpg`; everything else is a static
file. -/
def classify (dir_name leaf_name : Bytes) (params : Params) : Route :=
  if (remove_extension leaf_name (ascii "jpg")).isSome then
    if params.w.isSome || params.h.isSome then .rescale dir_name leaf_name
    else .staticFile dir_name leaf_name
  else
    match remove_extension leaf_name (ascii "html") with
    | some jpeg_name =>
      if (remove_extension jpeg_name (ascii "jpg")).isSome then .frame dir_name jpeg_name
      else .staticFile dir_name leaf_name
    | none =>
      match remove_extension leaf_name (ascii "thumb") with
      | some jpeg_name =>
        if (remove_extension jpeg_name (ascii "jpg")).isSome then .thumb dir_name jpeg_name
        else .staticFile dir_name leaf_name
      | none => .staticFile dir_name leaf_name

/-- HTTP method: only GET is served. -/
inductive Method
  | Get
  | Other
deriving DecidableEq

/-- Dispatch of a two-segment request to the classified handler. -/
def dispatch (rp : ResizePrim) (fs : FS) (document_root thumbnail_root dir_name leaf_name : Bytes)
    (params : Params) : Except HttpError HttpOkay × FS × Nat :=
  match classify dir_name leaf_name params with
  | .rescale d l2 => (rescale_fn rp fs document_root d l2 params, fs, 1)
  | .frame d j => (frame_fn fs document_root d j params, fs, 0)
  | .thumb d j => thumb rp fs document_root thumbnail_root d j
  | .staticFile d l2 => (static_fn fs document_root d l2, fs, 0)

/-- `PhotoServer::handle_request` (main.rs 354-400), from the decoded path
segments and decoded query pairs (URL parsing and percent-decoding happen in
external crates): non-GET is `Invalid`; a trailing empty segment is dropped;
the first segment is the album directory (missing means `Invalid`); with no
second segment the index is served, otherwise the leaf is classified and
dispatched; any third or later segment is ignored. -/
def handle_request (rp : ResizePrim) (fs : FS) (document_root thumbnail_root : Bytes)
    (method : Method) (segs : List Bytes) (pairs : List (Bytes × Bytes)) :
    Except HttpError HttpOkay × FS × Nat :=
  match method with
  | .Other => (.error .Invalid, fs, 0)
  | .Get =>
    let params := params_of_pairs pairs
    let path : List Bytes :=
      match segs.getLast? with
      | some l2 => if l2 = [] then segs.dropLast else segs
      | none => segs
    match path with
    | [] => (.error .Invalid, fs, 0)
    | dir_name :: rest =>
      match rest with
      | [] => (index_fn fs document_root dir_name params, fs, 0)
      | leaf_name :: _ =>
        dispatch rp fs document_root thumbnail_root dir_name leaf_name params

/-! ### Helper lemmas about the extension matcher -/

theorem eqIgnoreAsciiCase_length : ∀ {x y : Bytes}, eqIgnoreAsciiCase x y = true →
    x.length = y.length
  | [], [], _ => rfl
  | _ :: x, _ :: y, h => by
    simp only [eqIgnoreAsciiCase, Bool.and_eq_true] at h
    simpa using @eqIgnoreAsciiCase_length x y h.2
  | [], _ :: _, h => by simp [eqIgnoreAsciiCase] at h
  | _ :: _, [], h => by simp [eqIgnoreAsciiCase] at h

theorem eqIgnoreAsciiCase_refl : ∀ x : Bytes, eqIgnoreAsciiCase x x = true
  | [] => rfl
  | a :: x => by simp [eqIgnoreAsciiCase, eqIgnoreAsciiCase_refl x]

/-- Two suffix decompositions of the same list align: the shorter suffix is a
tail of the longer one. -/
theorem suffix_align {l x y t1 t2 : Bytes} (h1 : l = x ++ t1) (h2 : l = y ++ t2)
    (hle : t1.length ≤ t2.length) :
    t1 = List.drop (t2.length - t1.length) t2 := by
  have hsplit : y ++ t2 =
      (y ++ List.take (t2.length - t1.length) t2) ++ List.drop (t2.length - t1.length) t2 := by
    rw [List.append_assoc, List.take_append_drop]
  have heq : x ++ t1 =
      (y ++ List.take (t2.length - t1.length) t2) ++ List.drop (t2.length - t1.length) t2 := by
    rw [← hsplit, ← h2, h1]
  have hlen : t1.length = (List.drop (t2.length - t1.length) t2).length := by
    simp only [List.length_drop]
    omega
  exact (List.append_inj' heq hlen).2

/-- `remove_extension` on an explicit decomposition succeeds with the base. -/
theorem remove_extension_append {base s ext : Bytes} (hci : eqIgnoreAsciiCase ext s = true) :
    remove_extension (base ++ 46 :: s) ext = some base := by
  have hslen : ext.length = s.length := eqIgnoreAsciiCase_length hci
  have hlen : (base ++ 46 :: s).length = base.length + 1 + s.length := by
    simp [List.length_append]
    omega
  have hidx : (base ++ 46 :: s).length - (1 + ext.length) = base.length := by
    rw [hlen, hslen]
    omega
  have hdrop : List.drop base.length (base ++ 46 :: s) = 46 :: s := List.drop_left base _
  have htake : List.take base.length (base ++ 46 :: s) = base := List.take_left base _
  have hboundary : isCharBoundary (base ++ 46 :: s) base.length = true := by
    unfold isCharBoundary
    rw [hdrop]
    simp [isContinuation]
  unfold remove_extension
  rw [if_pos (by rw [hlen, hslen]; omega)]
  rw [hidx, if_pos hboundary, hdrop]
  simp [hci, htake]

/-- Characterisation of `remove_extension`: it returns `some base` exactly
when the name is `base ++ "." ++ s` for a suffix `s` that equals the
extension ignoring ASCII case. -/
theorem remove_extension_eq_some_iff {filename extension base : Bytes} :
    remove_extension filename extension = some base ↔
      ∃ s, eqIgnoreAsciiCase extension s = true ∧ filename = base ++ 46 :: s := by
  constructor
  · intro h
    unfold remove_extension at h
    split at h
    case isFalse => exact absurd h (by simp)
    case isTrue hle =>
      split at h
      case isFalse => exact absurd h (by simp)
      case isTrue hb =>
        split at h
        case h_2 => exact absurd h (by simp)
        case h_1 b tl hd =>
          split at h
          case isFalse => exact absurd h (by simp)
          case isTrue hb46 =>
            split at h
            case isFalse => exact absurd h (by simp)
            case isTrue hci =>
              have hbase : filename.take (filename.length - (1 + extension.length)) = base :=
                Option.some.inj h
              refine ⟨tl, hci, ?_⟩
              subst hb46
              rw [← hbase, ← hd, List.take_append_drop]
  · rintro ⟨s, hci, rfl⟩
    exact remove_extension_append hci

/-- `isSome` form of the characterisation. -/
theorem remove_extension_isSome_iff {filename extension : Bytes} :
    (remove_extension filename extension).isSome = true ↔
      ∃ base s, eqIgnoreAsciiCase extension s = true ∧ filename = base ++ 46 :: s := by
  constructor
  · intro h
    rcases Option.isSome_iff_exists.mp h with ⟨base, hb⟩
    rcases remove_extension_eq_some_iff.mp hb with ⟨s, hci, heq⟩
    exact ⟨base, s, hci, heq⟩
  · rintro ⟨base, s, hci, rfl⟩
    rw [remove_extension_append hci]
    rfl

/-! ### Spec-side suffix predicates and the route-classification lemmas -/

/-- The spec's "`name` ends with `.` followed by `ext`", case-insensitively
on the extension only. -/
def EndsWithDotCI (name ext : Bytes) : Prop :=
  ∃ base s, eqIgnoreAsciiCase ext s = true ∧ name = base ++ 46 :: s

/-- The spec's "leaf ends with `.jpg.html`" (case-insensitive). -/
def EndsJpgHtml (name : Bytes) : Prop :=
  ∃ base m h2, eqIgnoreAsciiCase (ascii "jpg") m = true ∧
    eqIgnoreAsciiCase (ascii "html") h2 = true ∧ name = base ++ (46 :: m) ++ (46 :: h2)

/-- The spec's "leaf ends with `.jpg.thumb`" (case-insensitive). -/
def EndsJpgThumb (name : Bytes) : Prop :=
  ∃ base m t, eqIgnoreAsciiCase (ascii "jpg") m = true ∧
    eqIgnoreAsciiCase (ascii "thumb") t = true ∧ name = base ++ (46 :: m) ++ (46 :: t)

/-- Executable check for `EndsJpgHtml`, following the router's own tests. -/
def is_jpg_html (leaf : Bytes) : Bool :=
  match remove_extension leaf (ascii "html") with
  | some j => (remove_extension j (ascii "jpg")).isSome
  | none => false

/-- Executable check for `EndsJpgThumb`. -/
def is_jpg_thumb (leaf : Bytes) : Bool :=
  match remove_extension leaf (ascii "thumb") with
  | some j => (remove_extension j (ascii "jpg")).isSome
  | none => false

theorem EndsWithDotCI_iff {name ext : Bytes} :
    EndsWithDotCI name ext ↔ (remove_extension name ext).isSome = true :=
  remove_extension_isSome_iff.symm

theorem EndsJpgHtml_iff {leaf : Bytes} : EndsJpgHtml leaf ↔ is_jpg_html leaf = true := by
  constructor
  · rintro ⟨base, m, h2, hcm, hch, rfl⟩
    unfold is_jpg_html
    rw [remove_extension_append hch]
    show (remove_extension (base ++ 46 :: m) (ascii "jpg")).isSome = true
    rw [remove_extension_append hcm]
    rfl
  · intro h
    unfold is_jpg_html at h
    cases hh : remove_extension leaf (ascii "html") with
    | none => rw [hh] at h; exact absurd h (by simp)
    | some j =>
      rw [hh] at h
      rcases remove_extension_eq_some_iff.mp hh with ⟨s, hcs, heq⟩
      rcases remove_extension_isSome_iff.mp h with ⟨b, m, hcm, heqj⟩
      exact ⟨b, m, s, hcm, hcs, by rw [heq, heqj, List.append_assoc]⟩

theorem EndsJpgThumb_iff {leaf : Bytes} : EndsJpgThumb leaf ↔ is_jpg_thumb leaf = true := by
  constructor
  · rintro ⟨base, m, t, hcm, hct, rfl⟩
    unfold is_jpg_thumb
    rw [remove_extension_append hct]
    show (remove_extension (base ++ 46 :: m) (ascii "jpg")).isSome = true
    rw [remove_extension_append hcm]
    rfl
  · intro h
    unfold is_jpg_thumb at h
    cases hh : remove_extension leaf (ascii "thumb") with
    | none => rw [hh] at h; exact absurd h (by simp)
    | some j =>
      rw [hh] at h
      rcases remove_extension_eq_some_iff.mp hh with ⟨s, hcs, heq⟩
      rcases remove_extension_isSome_iff.mp h with ⟨b, m, hcm, heqj⟩
      exact ⟨b, m, s, hcm, hcs, by rw [heq, heqj, List.append_assoc]⟩

/-- A name ending in `.jpg.html` does not end in `.jpg`: the candidate `.jpg`
suffix would have to start at the `h`/`H` of `html`. -/
theorem not_jpg_of_jpgHtml {leaf : Bytes} (h : EndsJpgHtml leaf) :
    remove_extension leaf (ascii "jpg") = none := by
  rcases h with ⟨base, m, h2, hcm, hch, heq⟩
  by_contra hne
  have hs : (remove_extension leaf (ascii "jpg")).isSome = true := by
    cases hre : remove_extension leaf (ascii "jpg") with
    | none => exact absurd hre hne
    | some _ => rfl
  rcases remove_extension_isSome_iff.mp hs with ⟨b2, s2, hcs, heq2⟩
  have hls : s2.length = 3 := by
    have hl := eqIgnoreAsciiCase_length hcs
    simpa [ascii] using hl.symm
  have hlh : h2.length = 4 := by
    have hl := eqIgnoreAsciiCase_length hch
    simpa [ascii] using hl.symm
  have halign : (46 :: s2) =
      List.drop ((46 :: h2).length - (46 :: s2).length) (46 :: h2) :=
    suffix_align heq2 heq (by simp [hls, hlh])
  have hd1 : (46 :: h2).length - (46 :: s2).length = 1 := by simp [hls, hlh]
  rw [hd1, List.drop_one, List.tail_cons] at halign
  rw [← halign] at hch
  simp [ascii, eqIgnoreAsciiCase, toAsciiLower] at hch

/-- A name ending in `.jpg.thumb` does not end in `.jpg`. -/
theorem not_jpg_of_jpgThumb {leaf : Bytes} (h : EndsJpgThumb leaf) :
    remove_extension leaf (ascii "jpg") = none := by
  rcases h with ⟨base, m, t, hcm, hct, heq⟩
  by_contra hne
  have hs : (remove_extension leaf (ascii "jpg")).isSome = true := by
    cases hre : remove_extension leaf (ascii "jpg") with
    | none => exact absurd hre hne
    | some _ => rfl
  rcases remove_extension_isSome_iff.mp hs with ⟨b2, s2, hcs, heq2⟩
  have hls : s2.length = 3 := by
    have hl := eqIgnoreAsciiCase_length hcs
    simpa [ascii] using hl.symm
  have hlt : t.length = 5 := by
    have hl := eqIgnoreAsciiCase_length hct
    simpa [ascii] using hl.symm
  have halign : (46 :: s2) =
      List.drop ((46 :: t).length - (46 :: s2).length) (46 :: t) :=
    suffix_align heq2 heq (by simp [hls, hlt])
  have hd2 : (46 :: t).length - (46 :: s2).length = 2 := by simp [hls, hlt]
  rw [hd2] at halign
  cases t with
  | nil => simp at hlt
  | cons t0 trest =>
    have htr : trest = 46 :: s2 := by
      simpa using halign.symm
    rw [htr] at hct
    simp [ascii, eqIgnoreAsciiCase, toAsciiLower] at hct

/-- A name ending in `.jpg.thumb` does not end in `.html`. -/
theorem not_html_of_jpgThumb {leaf : Bytes} (h : EndsJpgThumb leaf) :
    remove_extension leaf (ascii "html") = none := by
  rcases h with ⟨base, m, t, hcm, hct, heq⟩
  by_contra hne
  have hs : (remove_extension leaf (ascii "html")).isSome = true := by
    cases hre : remove_extension leaf (ascii "html") with
    | none => exact absurd hre hne
    | some _ => rfl
  rcases remove_extension_isSome_iff.mp hs with ⟨b2, s4, hcs, heq2⟩
  have hls : s4.length = 4 := by
    have hl := eqIgnoreAsciiCase_length hcs
    simpa [ascii] using hl.symm
  have hlt : t.length = 5 := by
    have hl := eqIgnoreAsciiCase_length hct
    simpa [ascii] using hl.symm
  have halign : (46 :: s4) =
      List.drop ((46 :: t).length - (46 :: s4).length) (46 :: t) :=
    suffix_align heq2 heq (by simp [hls, hlt])
  have hd1 : (46 :: t).length - (46 :: s4).length = 1 := by simp [hls, hlt]
  rw [hd1, List.drop_one, List.tail_cons] at halign
  rw [← halign] at hct
  simp [ascii, eqIgnoreAsciiCase, toAsciiLower] at hct

/-- Branch lemma: a `.jpg` leaf with a size parameter classifies as Rescale. -/
theorem classify_rescale_of {dir_name leaf_name : Bytes} {params : Params}
    (h : EndsWithDotCI leaf_name (ascii "jpg"))
    (hp : (params.w.isSome || params.h.isSome) = true) :
    classify dir_name leaf_name params = .rescale dir_name leaf_name := by
  have hs := EndsWithDotCI_iff.mp h
  simp [classify, hs, hp]

/-- Branch lemma: a `.jpg.html` leaf classifies as Frame with the `.html`
suffix stripped. -/
theorem classify_frame_of {dir_name base m h2 : Bytes} {params : Params}
    (hcm : eqIgnoreAsciiCase (ascii "jpg") m = true)
    (hch : eqIgnoreAsciiCase (ascii "html") h2 = true) :
    classify dir_name (base ++ (46 :: m) ++ (46 :: h2)) params =
      .frame dir_name (base ++ 46 :: m) := by
  have hjpg : remove_extension (base ++ (46 :: m) ++ (46 :: h2)) (ascii "jpg") = none :=
    not_jpg_of_jpgHtml ⟨base, m, h2, hcm, hch, rfl⟩
  have hhtml : remove_extension (base ++ (46 :: m) ++ (46 :: h2)) (ascii "html") =
      some (base ++ 46 :: m) := remove_extension_append hch
  have hinner : (remove_extension (base ++ 46 :: m) (ascii "jpg")).isSome = true := by
    rw [remove_extension_append hcm]
    rfl
  unfold classify
  rw [hjpg, hhtml]
  simp [hinner]

/-- Branch lemma: a `.jpg.thumb` leaf classifies as Thumb with the `.thumb`
suffix stripped. -/
theorem classify_thumb_of {dir_name base m t : Bytes} {params : Params}
    (hcm : eqIgnoreAsciiCase (ascii "jpg") m = true)
    (hct : eqIgnoreAsciiCase (ascii "thumb") t = true) :
    classify dir_name (base ++ (46 :: m) ++ (46 :: t)) params =
      .thumb dir_name (base ++ 46 :: m) := by
  have hjpg : remove_extension (base ++ (46 :: m) ++ (46 :: t)) (ascii "jpg") = none :=
    not_jpg_of_jpgThumb ⟨base, m, t, hcm, hct, rfl⟩
  have hhtml : remove_extension (base ++ (46 :: m) ++ (46 :: t)) (ascii "html") = none :=
    not_html_of_jpgThumb ⟨base, m, t, hcm, hct, rfl⟩
  have hthumb : remove_extension (base ++ (46 :: m) ++ (46 :: t)) (ascii "thumb") =
      some (base ++ 46 :: m) := remove_extension_append hct
  have hinner : (remove_extension (base ++ 46 :: m) (ascii "jpg")).isSome = true := by
    rw [remove_extension_append hcm]
    rfl
  unfold classify
  rw [hjpg, hhtml, hthumb]
  simp [hinner]

/-- Branch lemma: anything that matches none of the three decorated shapes —
including a `.jpg` leaf without size parameters — is served as a static
file. -/
theorem classify_static_of {dir_name leaf_name : Bytes} {params : Params}
    (h1 : ¬ (EndsWithDotCI leaf_name (ascii "jpg") ∧
      (params.w.isSome || params.h.isSome) = true))
    (h2 : ¬ EndsJpgHtml leaf_name) (h3 : ¬ EndsJpgThumb leaf_name) :
    classify dir_name leaf_name params = .staticFile dir_name leaf_name := by
  by_cases hjpg : (remove_extension leaf_name (ascii "jpg")).isSome = true
  · have hp : (params.w.isSome || params.h.isSome) = false := by
      cases hq : (params.w.isSome || params.h.isSome) with
      | true => exact absurd ⟨EndsWithDotCI_iff.mpr hjpg, hq⟩ h1
      | false => rfl
    simp [classify, hjpg, hp]
  · have hjn : remove_extension leaf_name (ascii "jpg") = none :=
      Option.not_isSome_iff_eq_none.mp hjpg
    cases hh : remove_extension leaf_name (ascii "html") with
    | some j =>
      have hji : remove_extension j (ascii "jpg") = none := by
        by_contra hne
        have hs : (remove_extension j (ascii "jpg")).isSome = true := by
          cases hre : remove_extension j (ascii "jpg") with
          | none => exact absurd hre hne
          | some _ => rfl
        rcases remove_extension_eq_some_iff.mp hh with ⟨s, hcs, heq⟩
        rcases remove_extension_isSome_iff.mp hs with ⟨b, m, hcm, heqj⟩
        exact h2 ⟨b, m, s, hcm, hcs, by rw [heq, heqj, List.append_assoc]⟩
      simp [classify, hjn, hh, hji]
    | none =>
      cases ht : remove_extension leaf_name (ascii "thumb") with
      | some j =>
        have hji : remove_extension j (ascii "jpg") = none := by
          by_contra hne
          have hs : (remove_extension j (ascii "jpg")).isSome = true := by
            cases hre : remove_extension j (ascii "jpg") with
            | none => exact absurd hre hne
            | some _ => rfl
          rcases remove_extension_eq_some_iff.mp ht with ⟨s, hcs, heq⟩
          rcases remove_extension_isSome_iff.mp hs with ⟨b, m, hcm, heqj⟩
          exact h3 ⟨b, m, s, hcm, hcs, by rw [heq, heqj, List.append_assoc]⟩
        simp [classify, hjn, hh, ht, hji]
      | none => simp [classify, hjn, hh, ht]

/-! ### Helper lemmas: navigation maps, album scan, trimming, dispatch -/

/-- A name not in `paths` is not a key of the `previouses` map. -/
theorem lookup_buildMaps_fst :
    ∀ (paths : List Bytes) (prev : Bytes)
      (acc : List (Bytes × Bytes) × List (Bytes × Bytes)) {name : Bytes},
      name ∉ paths →
      List.lookup name (buildMaps paths prev acc).fst = List.lookup name acc.fst
  | [], _, _, _, _ => rfl
  | p :: rest, prev, (accP, accN), name, hn => by
    have hnp : name ≠ p := fun h => hn (h ▸ List.mem_cons_self p rest)
    have hnr : name ∉ rest := fun h => hn (List.mem_cons_of_mem p h)
    unfold buildMaps
    rw [lookup_buildMaps_fst rest p ((p, prev) :: accP, (prev, p) :: accN) hnr]
    simp [List.lookup, beq_eq_false_iff_ne.mpr hnp]

/-- A dubious name anywhere in the enumeration aborts `album_scan` with a
`DubiousFilename` error. -/
theorem album_scan_aborts :
    ∀ (entries : List Bytes) (acc : Album) {name : Bytes}, name ∈ entries →
      name.all valid_byte = false →
      ∃ m, album_scan entries acc = .error (.Error (.dubious m)) ∧
        m.all valid_byte = false := by
  intro entries
  induction entries with
  | nil =>
    intro acc name h _
    exact absurd h (List.not_mem_nil name)
  | cons e rest ih =>
    intro acc name hmem hbad
    by_cases he : e.all valid_byte = true
    · have hval : validate_name e = .ok e := by simp [validate_name, he]
      have hmem2 : name ∈ rest := by
        rcases List.mem_cons.mp hmem with h | h
        · rw [h] at hbad
          rw [hbad] at he
          exact absurd he (by simp)
        · exact h
      simp only [album_scan, hval]
      by_cases hr : e = ascii "README.txt"
      · simp only [if_pos hr]
        exact ih _ hmem2 hbad
      · simp only [if_neg hr]
        cases hje : remove_extension e (ascii "jpg") with
        | some _ => exact ih _ hmem2 hbad
        | none => exact ih _ hmem2 hbad
    · have he2 : e.all valid_byte = false := by simpa using he
      have hval : validate_name e = .error ⟨e⟩ := by simp [validate_name, he2]
      exact ⟨e, by simp only [album_scan, hval], he2⟩

theorem dropWhile_append_all {p : Nat → Bool} :
    ∀ {w l : Bytes}, (∀ b ∈ w, p b = true) → (w ++ l).dropWhile p = l.dropWhile p
  | [], _, _ => rfl
  | b :: w, l, h => by
    have hb : p b = true := h b (List.mem_cons_self b w)
    simp only [List.cons_append, List.dropWhile_cons, hb, if_true]
    exact dropWhile_append_all (fun x hx => h x (List.mem_cons_of_mem b hx))

theorem dropWhile_append_keep {p : Nat → Bool} :
    ∀ {s t : Bytes}, (∃ b ∈ s, p b = false) → (s ++ t).dropWhile p = s.dropWhile p ++ t
  | [], _, h => by
    rcases h with ⟨b, hb, _⟩
    exact absurd hb (List.not_mem_nil b)
  | a :: s, t, h => by
    by_cases ha : p a = true
    · simp only [List.cons_append, List.dropWhile_cons, ha, if_true]
      apply dropWhile_append_keep
      rcases h with ⟨b, hb, hpb⟩
      rcases List.mem_cons.mp hb with rfl | hbs
      · rw [ha] at hpb
        exact absurd hpb (by simp)
      · exact ⟨b, hbs, hpb⟩
    · have ha2 : p a = false := by simpa using ha
      simp [List.dropWhile_cons, ha2]

theorem trim_of_all_ws {s : Bytes} (h : ∀ b ∈ s, is_ws b = true) : trim_bytes s = [] := by
  unfold trim_bytes
  rw [List.dropWhile_eq_nil_iff.mpr h]
  rfl

/-- Surrounding whitespace does not change the trimmed value. -/
theorem trim_bytes_surround {w1 s w2 : Bytes} (h1 : ∀ b ∈ w1, is_ws b = true)
    (h2 : ∀ b ∈ w2, is_ws b = true) : trim_bytes (w1 ++ s ++ w2) = trim_bytes s := by
  by_cases hs : ∀ b ∈ s, is_ws b = true
  · have hall : ∀ b ∈ w1 ++ s ++ w2, is_ws b = true := by
      intro b hb
      rcases List.mem_append.mp hb with hb1 | hb2
      · rcases List.mem_append.mp hb1 with h | h
        exacts [h1 b h, hs b h]
      · exact h2 b hb2
    rw [trim_of_all_ws hall, trim_of_all_ws hs]
  · push_neg at hs
    rcases hs with ⟨b, hb, hnb⟩
    have hbf : is_ws b = false := by simpa using hnb
    unfold trim_bytes
    rw [List.append_assoc, dropWhile_append_all h1, dropWhile_append_keep ⟨b, hb, hbf⟩,
      List.reverse_append,
      dropWhile_append_all (fun x hx => h2 x (List.mem_reverse.mp hx))]

/-- `handle_request` on a one-segment GET dispatches straight to the album
index for any non-empty directory name: no validation is applied. -/
theorem handle_request_single (rp : ResizePrim) (fs : FS) (droot troot dir : Bytes)
    (pairs : List (Bytes × Bytes)) (hd : dir ≠ []) :
    handle_request rp fs droot troot .Get [dir] pairs =
      (index_fn fs droot dir (params_of_pairs pairs), fs, 0) := by
  unfold handle_request
  simp [hd]

/-- `handle_request` on a two-segment GET goes straight to the suffix
dispatch for any non-empty leaf name: no validation is applied. -/
theorem handle_request_pair (rp : ResizePrim) (fs : FS) (droot troot dir leaf : Bytes)
    (pairs : List (Bytes × Bytes)) (hl : leaf ≠ []) :
    handle_request rp fs droot troot .Get [dir, leaf] pairs =
      dispatch rp fs droot troot dir leaf (params_of_pairs pairs) := by
  unfold handle_request
  simp [hl]

/-! ### Substring occurrence check and concrete inputs used in examples -/

/-- Does `needle` start `hay`? -/
def leadMatch : Bytes → Bytes → Bool
  | [], _ => true
  | _ :: _, [] => false
  | a :: x, b :: y => a == b && leadMatch x y

/-- Does `needle` occur contiguously anywhere in `hay`? -/
def occursIn (needle : Bytes) : Bytes → Bool
  | [] => leadMatch needle []
  | b :: rest => leadMatch needle (b :: rest) || occursIn needle rest

/-- A concrete resize primitive for the examples. -/
def rpW : ResizePrim := fun _ d => some (ascii "JPEG" ++ nat_bytes d.w ++ nat_bytes d.h)

/-- A second, different concrete resize primitive. -/
def rpW2 : ResizePrim := fun _ _ => some (ascii "OTHER")

def drootW : Bytes := ascii "document_root"

def trootW : Bytes := ascii "thumbnail_root"

def dirW : Bytes := ascii "vacation"

def leafW : Bytes := ascii "photo8.jpg"

def tpathW : Bytes := thumb_path trootW dirW leafW

/-- Filesystem for the C1 example: the dubious album directory exists and is
empty. -/
def fsC1 : FS :=
  { dirs := fun p => if p = joinPath drootW (ascii "x y") then some [] else none,
    files := fun _ => none }

/-- Filesystem for the C3 example: `vacation/` holds `a.jpg`, `b.jpg`,
`README.txt`; there is no `missing.jpg` and the thumbnail tree is empty. -/
def fs3 : FS :=
  { dirs := fun p =>
      if p = joinPath drootW dirW then
        some [ascii "a.jpg", ascii "b.jpg", ascii "README.txt"]
      else none,
    files := fun p =>
      if p = joinPath (joinPath drootW dirW) (ascii "a.jpg") then some [1]
      else if p = joinPath (joinPath drootW dirW) (ascii "b.jpg") then some [2]
      else if p = joinPath (joinPath drootW dirW) (ascii "README.txt") then some [3]
      else none }

/-- Filesystem for the C6 example: the thumbnail cache already holds the
file. -/
def fs6 : FS :=
  { dirs := fun _ => none,
    files := fun p => if p = tpathW then some [9, 9] else none }

/-- Filesystem for the C10 example: nothing exists. -/
def fs10 : FS := { dirs := fun _ => none, files := fun _ => none }

/-- The empty album. -/
def albumEmpty : Album := { readme := none, jpegs := [], others := [] }

/-! ### The claims -/

/-- Claim C2 (code bug): the claim says every name over
`[A-Za-z0-9_.-]` is accepted, and the function's own doc comment agrees, but
the `match` uses Rust's exclusive range patterns `b'0' .. b'9'`,
`b'A' .. b'Z'`, `b'a' .. b'z'`, so the in-set bytes `'9'` (57), `'Z'` (90)
and `'z'` (122) are rejected with `DubiousFilename`; other in-set names pass
unchanged. -/
theorem c2_validate_name_excludes_range_tops :
    spec_safe_byte 57 = true ∧ validate_name [57] = .error ⟨[57]⟩ ∧
    spec_safe_byte 90 = true ∧ validate_name [90] = .error ⟨[90]⟩ ∧
    spec_safe_byte 122 = true ∧ validate_name [122] = .error ⟨[122]⟩ ∧
    validate_name (ascii "photo-01.jpg") = .ok (ascii "photo-01.jpg") := by
  decide

/-- Claim C9: `remove_extension(name, ext)` succeeds iff `name` ends with
`.` followed by `ext` compared case-insensitively on the extension only; on
success the returned base concatenated with `.` and the original-cased
suffix reconstructs `name` exactly; and a name that is just the
dot-extension yields the accepted zero-length base. -/
theorem c9_remove_extension_spec (filename extension : Bytes) :
    ((remove_extension filename extension).isSome = true ↔
      ∃ base s, eqIgnoreAsciiCase extension s = true ∧ filename = base ++ 46 :: s)
    ∧ (∀ base, remove_extension filename extension = some base →
        ∃ s, eqIgnoreAsciiCase extension s = true ∧ filename = base ++ 46 :: s)
    ∧ remove_extension (46 :: extension) extension = some [] := by
  refine ⟨remove_extension_isSome_iff, ?_, ?_⟩
  · intro base h
    exact remove_extension_eq_some_iff.mp h
  · have h := @remove_extension_append [] extension extension (eqIgnoreAsciiCase_refl extension)
    simpa using h

/-- Witness for C9 at `("photo.JPG", "jpg")`. -/
theorem c9_witness :
    ∃ s, eqIgnoreAsciiCase (ascii "jpg") s = true ∧
      ascii "photo.JPG" = ascii "photo" ++ 46 :: s :=
  (c9_remove_extension_spec (ascii "photo.JPG") (ascii "jpg")).2.1 (ascii "photo") (by decide)

/-- Claim C8: dimension derivation substitutes the 800/600 defaults and
clamps at 2048 (`min 2048 (supplied or default)` in each component, with the
two quoted examples); query values are whitespace-trimmed before parsing,
and an unparsable value is stored as an absent field, not an error. -/
theorem c8_dimensions_spec :
    (∀ p : Params, p.get_dimensions =
      { w := min 2048 (p.w.getD 800), h := min 2048 (p.h.getD 600) })
    ∧ Params.get_dimensions { w := none, h := none } = { w := 800, h := 600 }
    ∧ Params.get_dimensions { w := some 3000, h := some 10 } = { w := 2048, h := 10 }
    ∧ (∀ w1 s w2 : Bytes, (∀ b ∈ w1, is_ws b = true) → (∀ b ∈ w2, is_ws b = true) →
        parse_u32 (w1 ++ s ++ w2) = parse_u32 s)
    ∧ (∀ v : Bytes, params_of_pairs [(ascii "w", v)] = { w := parse_u32 v, h := none }) := by
  refine ⟨?_, rfl, rfl, ?_, ?_⟩
  · intro p
    cases p with
    | mk w h => cases w <;> cases h <;> rfl
  · intro w1 s w2 h1 h2
    unfold parse_u32
    rw [trim_bytes_surround h1 h2]
  · intro v
    rfl

/-- Witness for C8's trimming clause at `" " ++ "42" ++ "\t"`. -/
theorem c8_witness :
    parse_u32 (ascii " " ++ ascii "42" ++ ascii "\t") = parse_u32 (ascii "42") :=
  c8_dimensions_spec.2.2.2.1 (ascii " ") (ascii "42") (ascii "\t") (by decide) (by decide)

/-- Claim C4: the previous/next computation treats the jpeg list as a cyclic
sequence — a singleton maps to itself, a three-element list wraps at both
ends, and a name not in the list fails with `NotFound`. -/
theorem c4_previous_next_cyclic (x a b c name : Bytes) (l : List Bytes)
    (hab : a ≠ b) (hac : a ≠ c) (hbc : b ≠ c) (hn : name ∉ l) :
    previous_next [x] x = .ok (x, x) ∧
    previous_next [a, b, c] b = .ok (a, c) ∧
    previous_next [a, b, c] a = .ok (c, b) ∧
    previous_next [a, b, c] c = .ok (b, a) ∧
    previous_next l name = .error .NotFound := by
  have f1 : (b == c) = false := beq_eq_false_iff_ne.mpr hbc
  have f2 : (a == c) = false := beq_eq_false_iff_ne.mpr hac
  have f3 : (a == b) = false := beq_eq_false_iff_ne.mpr hab
  have f4 : (c == b) = false := beq_eq_false_iff_ne.mpr (Ne.symm hbc)
  have f5 : (c == a) = false := beq_eq_false_iff_ne.mpr (Ne.symm hac)
  have f6 : (b == a) = false := beq_eq_false_iff_ne.mpr (Ne.symm hab)
  refine ⟨?_, ?_, ?_, ?_, ?_⟩
  · simp [previous_next, buildMaps, List.lookup]
  · simp [previous_next, buildMaps, List.lookup, f1, f2, f3, f4, f5, f6]
  · simp [previous_next, buildMaps, List.lookup, f1, f2, f3, f4, f5, f6]
  · simp [previous_next, buildMaps, List.lookup, f1, f2, f3, f4, f5, f6]
  · cases l with
    | nil => rfl
    | cons hd tl =>
      rcases hgl : (hd :: tl).getLast? with _ | lastp
      · rw [List.getLast?_eq_none_iff] at hgl
        exact absurd hgl (by simp)
      · have hlk : List.lookup name (buildMaps (hd :: tl) lastp ([], [])).fst = none := by
          rw [lookup_buildMaps_fst (hd :: tl) lastp ([], []) hn]
          rfl
        simp [previous_next, hgl, hlk]

/-- Witness for C4 at concrete names. -/
theorem c4_witness :
    previous_next [ascii "x"] (ascii "x") = .ok (ascii "x", ascii "x") ∧
    previous_next [ascii "a", ascii "b", ascii "c"] (ascii "b") = .ok (ascii "a", ascii "c") ∧
    previous_next [ascii "a", ascii "b", ascii "c"] (ascii "a") = .ok (ascii "c", ascii "b") ∧
    previous_next [ascii "a", ascii "b", ascii "c"] (ascii "c") = .ok (ascii "b", ascii "a") ∧
    previous_next [ascii "a"] (ascii "q") = .error .NotFound := by
  have h := c4_previous_next_cyclic (ascii "x") (ascii "a") (ascii "b") (ascii "c")
    (ascii "q") [ascii "a"] (by decide) (by decide) (by decide) (by decide)
  exact h

/-- Claim C5: the router classifies a leaf by suffix, most specific first —
a `.jpg` leaf (case-insensitive extension match, §4.2) with a size parameter
goes to Rescale; a `.jpg.html` leaf goes to Frame (with the `.html`
stripped); a `.jpg.thumb` leaf goes to Thumb (with the `.thumb` stripped);
any other leaf, including a `.jpg` leaf without size parameters, is served
as the raw static file. -/
theorem c5_route_classification (dir_name leaf_name : Bytes) (params : Params) :
    (EndsWithDotCI leaf_name (ascii "jpg") →
      (params.w.isSome || params.h.isSome) = true →
      classify dir_name leaf_name params = .rescale dir_name leaf_name)
    ∧ (∀ base m h2, eqIgnoreAsciiCase (ascii "jpg") m = true →
        eqIgnoreAsciiCase (ascii "html") h2 = true →
        leaf_name = base ++ (46 :: m) ++ (46 :: h2) →
        classify dir_name leaf_name params = .frame dir_name (base ++ 46 :: m))
    ∧ (∀ base m t, eqIgnoreAsciiCase (ascii "jpg") m = true →
        eqIgnoreAsciiCase (ascii "thumb") t = true →
        leaf_name = base ++ (46 :: m) ++ (46 :: t) →
        classify dir_name leaf_name params = .thumb dir_name (base ++ 46 :: m))
    ∧ (¬(EndsWithDotCI leaf_name (ascii "jpg") ∧
        (params.w.isSome || params.h.isSome) = true) →
        ¬ EndsJpgHtml leaf_name → ¬ EndsJpgThumb leaf_name →
        classify dir_name leaf_name params = .staticFile dir_name leaf_name) := by
  refine ⟨fun h hp => classify_rescale_of h hp, ?_, ?_,
    fun h1 h2 h3 => classify_static_of h1 h2 h3⟩
  · rintro base m h2 hcm hch rfl
    exact classify_frame_of hcm hch
  · rintro base m t hcm hct rfl
    exact classify_thumb_of hcm hct

/-- Witness for C5: one concrete leaf per classification branch, including
the undecorated-`.jpg` static case. -/
theorem c5_witness :
    classify dirW (ascii "p.jpg") { w := some 1, h := none } =
      .rescale dirW (ascii "p.jpg") ∧
    classify dirW (ascii "p.jpg.html") { w := none, h := none } =
      .frame dirW (ascii "p" ++ 46 :: ascii "jpg") ∧
    classify dirW (ascii "p.JPG.THUMB") { w := none, h := none } =
      .thumb dirW (ascii "p" ++ 46 :: ascii "JPG") ∧
    classify dirW (ascii "p.txt") { w := none, h := none } =
      .staticFile dirW (ascii "p.txt") ∧
    classify dirW (ascii "p.jpg") { w := none, h := none } =
      .staticFile dirW (ascii "p.jpg") := by
  refine ⟨?_, ?_, ?_, ?_, ?_⟩
  · exact (c5_route_classification dirW (ascii "p.jpg") { w := some 1, h := none }).1
      ⟨ascii "p", ascii "jpg", by decide⟩ (by decide)
  · exact (c5_route_classification dirW (ascii "p.jpg.html") { w := none, h := none }).2.1
      (ascii "p") (ascii "jpg") (ascii "html") (by decide) (by decide) (by decide)
  · exact (c5_route_classification dirW (ascii "p.JPG.THUMB") { w := none, h := none }).2.2.1
      (ascii "p") (ascii "JPG") (ascii "THUMB") (by decide) (by decide) (by decide)
  · exact (c5_route_classification dirW (ascii "p.txt") { w := none, h := none }).2.2.2
      (by rintro ⟨_, h⟩; exact absurd h (by decide))
      (by rw [EndsJpgHtml_iff]; decide)
      (by rw [EndsJpgThumb_iff]; decide)
  · exact (c5_route_classification dirW (ascii "p.jpg") { w := none, h := none }).2.2.2
      (by rintro ⟨_, h⟩; exact absurd h (by decide))
      (by rw [EndsJpgHtml_iff]; decide)
      (by rw [EndsJpgThumb_iff]; decide)

/-- Claim C6: once a thumbnail request for a key succeeds, the cache file
holds the served bytes, and every later request for that key — with any
resize primitive, on any filesystem state still holding that cache file —
skips generation (the exclusive create fails), performs zero resize calls,
and serves the byte-identical stored file. -/
theorem c6_thumb_idempotent (rp : ResizePrim) (fs : FS)
    (droot troot dir_name leaf_name : Bytes) (res : HttpOkay) (fs1 : FS) (n : Nat)
    (h : thumb rp fs droot troot dir_name leaf_name = (.ok res, fs1, n)) :
    ∃ bytes, res = .File bytes ∧
      fs1.files (thumb_path troot dir_name leaf_name) = some bytes ∧
      ∀ (rp2 : ResizePrim) (fs2 : FS),
        fs2.files (thumb_path troot dir_name leaf_name) = some bytes →
        thumb rp2 fs2 droot troot dir_name leaf_name = (.ok (.File bytes), fs2, 0) := by
  have hskip : ∀ (rp2 : ResizePrim) (fs2 : FS) (bytes : Bytes),
      fs2.files (thumb_path troot dir_name leaf_name) = some bytes →
      thumb rp2 fs2 droot troot dir_name leaf_name = (.ok (.File bytes), fs2, 0) := by
    intro rp2 fs2 bytes h2
    unfold thumb
    rw [h2]
  unfold thumb at h
  split at h
  next contents hf =>
    injection h with hok hrest
    injection hrest with hfs hn
    injection hok with hres
    refine ⟨contents, hres.symm, ?_, fun rp2 fs2 h2 => hskip rp2 fs2 contents h2⟩
    rw [← hfs]
    exact hf
  next hf =>
    split at h
    next e hre =>
      injection h with hok _
      exact absurd hok (by simp)
    next bytes hre =>
      injection h with hok hrest
      injection hrest with hfs hn
      injection hok with hres
      refine ⟨bytes, hres.symm, ?_, fun rp2 fs2 h2 => hskip rp2 fs2 bytes h2⟩
      rw [← hfs]
      simp [FS.setFile]

/-- Witness for C6: the cache already holds `[9, 9]`; a repeat request with a
different primitive returns the stored bytes, leaves the state unchanged and
performs zero resize calls. -/
theorem c6_witness :
    thumb rpW2 fs6 drootW trootW dirW leafW = (.ok (.File [9, 9]), fs6, 0) := by
  obtain ⟨b, hb, hfile, hall⟩ := c6_thumb_idempotent rpW fs6 drootW trootW dirW leafW
    (.File [9, 9]) fs6 0 rfl
  injection hb with hb2
  subst hb2
  exact hall rpW2 fs6 hfile

/-- Claim C10: thumbnail generation is not atomic on failure — when the
exclusive create succeeds (cache file absent) but the resize of the source
fails, the error is returned while the newly created empty cache file stays
behind, and every later request for the same key skips generation and
returns status 200 with the empty file's contents. -/
theorem c10_thumb_failure_leaves_empty_cache (rp : ResizePrim) (fs : FS)
    (droot troot dir_name leaf_name : Bytes) (e : HttpError)
    (hmiss : fs.files (thumb_path troot dir_name leaf_name) = none)
    (hfail : resize_jpeg rp (fs.setFile (thumb_path troot dir_name leaf_name) [])
      (joinPath (joinPath droot dir_name) leaf_name) { w := 128, h := 96 } = .error e) :
    thumb rp fs droot troot dir_name leaf_name =
      (.error e, fs.setFile (thumb_path troot dir_name leaf_name) [], 1) ∧
    (fs.setFile (thumb_path troot dir_name leaf_name) []).files
      (thumb_path troot dir_name leaf_name) = some [] ∧
    (∀ rp2 : ResizePrim,
      thumb rp2 (fs.setFile (thumb_path troot dir_name leaf_name) []) droot troot
        dir_name leaf_name =
      (.ok (.File []), fs.setFile (thumb_path troot dir_name leaf_name) [], 0)) ∧
    status_of (.ok (.File [])) = 200 := by
  have hset : (fs.setFile (thumb_path troot dir_name leaf_name) []).files
      (thumb_path troot dir_name leaf_name) = some [] := by
    simp [FS.setFile]
  refine ⟨?_, hset, ?_, rfl⟩
  · unfold thumb
    rw [hmiss, hfail]
  · intro rp2
    unfold thumb
    rw [hset]

/-- Witness for C10: empty filesystem, so the source is missing; the first
request errors and leaves the empty cache file, the second serves it. -/
theorem c10_witness :
    thumb rpW fs10 drootW trootW dirW leafW =
      (.error (.Error .image), fs10.setFile (thumb_path trootW dirW leafW) [], 1) ∧
    thumb rpW2 (fs10.setFile (thumb_path trootW dirW leafW) []) drootW trootW dirW leafW =
      (.ok (.File []), fs10.setFile (thumb_path trootW dirW leafW) [], 0) := by
  obtain ⟨h1, _, h3, _⟩ := c10_thumb_failure_leaves_empty_cache rpW fs10 drootW trootW
    dirW leafW (.Error .image) rfl rfl
  exact ⟨h1, h3 rpW2⟩

/-- Claim C1 (amended): `handle_request` applies no validation to URL path
segments — every non-empty first segment is dispatched straight to the album
index (or, with a leaf, straight to the suffix dispatch and its filesystem
joins), dubious bytes included.  `validate_name` is applied only to names
obtained from directory enumeration inside `Album::new`, where a dubious
name aborts the listing with the `DubiousFilename` error. -/
theorem c1_router_never_validates_url_segments :
    (∀ (rp : ResizePrim) (fs : FS) (droot troot dir : Bytes)
      (pairs : List (Bytes × Bytes)), dir ≠ [] →
      handle_request rp fs droot troot .Get [dir] pairs =
        (index_fn fs droot dir (params_of_pairs pairs), fs, 0))
    ∧ (∀ (rp : ResizePrim) (fs : FS) (droot troot dir leaf : Bytes)
        (pairs : List (Bytes × Bytes)), leaf ≠ [] →
        handle_request rp fs droot troot .Get [dir, leaf] pairs =
          dispatch rp fs droot troot dir leaf (params_of_pairs pairs))
    ∧ (∀ (entries : List Bytes) (name : Bytes), name ∈ entries →
        name.all valid_byte = false →
        ∃ m, album_new entries = .error (.Error (.dubious m))) := by
  refine ⟨?_, ?_, ?_⟩
  · intro rp fs droot troot dir pairs hd
    exact handle_request_single rp fs droot troot dir pairs hd
  · intro rp fs droot troot dir leaf pairs hl
    exact handle_request_pair rp fs droot troot dir leaf pairs hl
  · intro entries name hmem hbad
    obtain ⟨m, hm, _⟩ :=
      album_scan_aborts entries { readme := none, jpegs := [], others := [] } hmem hbad
    exact ⟨m, by simp [album_new, hm]⟩

/-- Claim C1 counterexample: a GET whose first segment `"x y"` contains a
space — a byte outside `[A-Za-z0-9_.-]` — is served the album index with
status 200 instead of failing with the filename-validation error. -/
theorem c1_counterexample :
    status_of ((handle_request rpW fsC1 drootW trootW .Get [ascii "x y"] []).fst) = 200 := by
  decide

/-- Witness for C1's amended statement at concrete dubious segments. -/
theorem c1_witness :
    (handle_request rpW fsC1 drootW trootW .Get [ascii "x y"] [] =
      (index_fn fsC1 drootW (ascii "x y") (params_of_pairs []), fsC1, 0)) ∧
    (handle_request rpW fsC1 drootW trootW .Get [ascii "x y", ascii "a<b.txt"] [] =
      dispatch rpW fsC1 drootW trootW (ascii "x y") (ascii "a<b.txt") (params_of_pairs [])) ∧
    ∃ m, album_new [ascii "a b"] = .error (.Error (.dubious m)) :=
  ⟨c1_router_never_validates_url_segments.1 rpW fsC1 drootW trootW (ascii "x y") []
      (by decide),
   c1_router_never_validates_url_segments.2.1 rpW fsC1 drootW trootW (ascii "x y")
      (ascii "a<b.txt") [] (by decide),
   c1_router_never_validates_url_segments.2.2 [ascii "a b"] (ascii "a b")
      (by decide) (by decide)⟩

/-- Claim C3 (amended): a thumbnail GET whose source JPEG is missing returns
status 500, not 404 — the exclusive create of the cache file succeeds, the
resize then fails on the missing source, and the failure surfaces as
`HttpError::Error`. -/
theorem c3_missing_thumb_source_gives_500 (rp : ResizePrim) (fs : FS)
    (droot troot dir_name base : Bytes) (pairs : List (Bytes × Bytes))
    (hroots : droot ≠ troot)
    (hcache : fs.files (thumb_path troot dir_name (base ++ ascii ".jpg")) = none)
    (hsrc : fs.files (joinPath (joinPath droot dir_name) (base ++ ascii ".jpg")) = none) :
    status_of ((handle_request rp fs droot troot .Get
      [dir_name, base ++ ascii ".jpg.thumb"] pairs).fst) = 500 := by
  have hleaf : base ++ ascii ".jpg.thumb" ≠ [] := by simp [ascii]
  rw [handle_request_pair rp fs droot troot dir_name _ pairs hleaf]
  have hclass : classify dir_name (base ++ ascii ".jpg.thumb") (params_of_pairs pairs) =
      .thumb dir_name (base ++ 46 :: ascii "jpg") := by
    have hsplit : base ++ ascii ".jpg.thumb" =
        base ++ (46 :: ascii "jpg") ++ (46 :: ascii "thumb") := by
      rw [List.append_assoc]
      rfl
    rw [hsplit]
    exact classify_thumb_of (by decide) (by decide)
  unfold dispatch
  rw [hclass]
  show status_of ((thumb rp fs droot troot dir_name (base ++ 46 :: ascii "jpg")).fst) = 500
  have hne : joinPath (joinPath droot dir_name) (base ++ 46 :: ascii "jpg") ≠
      thumb_path troot dir_name (base ++ 46 :: ascii "jpg") := by
    intro hcontra
    unfold thumb_path joinPath at hcontra
    exact hroots (List.append_cancel_right (List.append_cancel_right hcontra))
  have hc : fs.files (thumb_path troot dir_name (base ++ 46 :: ascii "jpg")) = none := hcache
  have hs2 : (fs.setFile (thumb_path troot dir_name (base ++ 46 :: ascii "jpg")) []).files
      (joinPath (joinPath droot dir_name) (base ++ 46 :: ascii "jpg")) = none := by
    simp only [FS.setFile, if_neg hne]
    exact hsrc
  unfold thumb
  rw [hc]
  unfold resize_jpeg
  rw [hs2]
  rfl

/-- Claim C3 counterexample: with `vacation/` holding `a.jpg`, `b.jpg` and
`README.txt`, `GET /vacation/missing.jpg.thumb` answers 500, not the claimed
404. -/
theorem c3_counterexample :
    status_of ((handle_request rpW fs3 drootW trootW .Get
      [dirW, ascii "missing.jpg.thumb"] []).fst) = 500 ∧
    status_of ((handle_request rpW fs3 drootW trootW .Get
      [dirW, ascii "missing.jpg.thumb"] []).fst) ≠ 404 := by
  decide

/-- Witness for C3's amended statement at the concrete request. -/
theorem c3_witness :
    status_of ((handle_request rpW fs3 drootW trootW .Get
      [dirW, ascii "missing" ++ ascii ".jpg.thumb"] []).fst) = 500 :=
  c3_missing_thumb_source_gives_500 rpW fs3 drootW trootW dirW (ascii "missing") []
    (by decide) (by decide) (by decide)

/-- Claim C7 (amended): the index renderer HTML-escapes the README text
before interpolation (the rendered page contains `escape_html text`), but
neither renderer escapes interpolated filenames — the album directory name
is inserted raw into both pages and the leaf name raw into the frame page.
(Enumerated names cannot carry HTML metacharacters because `Album::new`
validates them, but the URL-derived directory and leaf names are never
validated.) -/
theorem c7_readme_escaped_filenames_raw :
    (∀ (dir_name text : Bytes) (album : Album) (d : Dimensions), ∃ pre post,
      index_html dir_name (pre_block text) album d = pre ++ escape_html text ++ post)
    ∧ (∀ (dir_name readme : Bytes) (album : Album) (d : Dimensions), ∃ pre post,
      index_html dir_name readme album d = pre ++ dir_name ++ post)
    ∧ (∀ (dir_name leaf_name previous next : Bytes) (d : Dimensions), ∃ pre post,
      frame_html dir_name leaf_name previous next d = pre ++ leaf_name ++ post) := by
  refine ⟨?_, ?_, ?_⟩
  · intro dir_name text album d
    refine ⟨idx1 ++ dir_name ++ idx2 ++ dir_name ++ idx3 ++ ascii "<pre>",
      ascii "</pre>" ++ idx4 ++ joinSep idx4 (album.jpegs.map (jpeg_entry d)) ++ idx5 ++
        joinSep idx4 (album.others.map other_entry) ++ idx6, ?_⟩
    simp [index_html, pre_block, List.append_assoc]
  · intro dir_name readme album d
    refine ⟨idx1,
      idx2 ++ dir_name ++ idx3 ++ readme ++ idx4 ++
        joinSep idx4 (album.jpegs.map (jpeg_entry d)) ++ idx5 ++
        joinSep idx4 (album.others.map other_entry) ++ idx6, ?_⟩
    simp [index_html, List.append_assoc]
  · intro dir_name leaf_name previous next d
    refine ⟨frm1 ++ dir_name ++ frm2 ++ (remove_extension leaf_name (ascii "jpg")).getD [] ++
        frm3 ++ stylesheet ++ frm4 ++ dir_name ++ frm2 ++
        (remove_extension leaf_name (ascii "jpg")).getD [] ++ frm5,
      frm6 ++ previous ++ frm7 ++ dims_str d ++ frm8 ++ next ++ frm7 ++ dims_str d ++
        frm9 ++ dims_str d ++ frm10 ++ leaf_name ++ frm11 ++ leaf_name ++ dims_str d ++
        frm12 ++ nat_bytes d.w ++ frm13 ++ nat_bytes d.h ++ frm14, ?_⟩
    simp [frame_html, List.append_assoc]

/-- Claim C7 counterexample: rendering the index of the album directory
named `"x<y"` yields HTML containing the raw `"x<y"` and nowhere the escaped
form `"x&lt;y"` — a filename with an HTML metacharacter is interpolated
unescaped. -/
theorem c7_counterexample :
    occursIn (ascii "x<y")
      (index_html (ascii "x<y") [] albumEmpty { w := 800, h := 600 }) = true ∧
    occursIn (ascii "x&lt;y")
      (index_html (ascii "x<y") [] albumEmpty { w := 800, h := 600 }) = false := by
  decide

end PhotoSrv
